import Mathlib

/-!
# Verification of the depth-limited web crawler
(`scripting_cyber/0x01-python_scripting/6-web_crawler.py`)

Shallow embedding of the crawler: URL parsing and joining model Python's
`urllib.parse.urlsplit` / `urljoin` on the components the crawler reads
(scheme, netloc, path, query, fragment); the HTTP session is modelled as a
pure fetch oracle `String → FetchOutcome`, and the HTML parser (an external
collaborator) is modelled by letting each response carry the list of href
attribute values it would yield.
-/

namespace WebCrawlerModel

/-- `charsPre pat l` : `pat` is an initial run of `l` (character lists). -/
def charsPre : List Char → List Char → Bool
  | [], _ => true
  | _ :: _, [] => false
  | a :: as, b :: bs => a = b && charsPre as bs

/-- `charsContains hay pat` : `pat` occurs contiguously inside `hay`
(model of Python's `pat in hay` on strings). -/
def charsContains : List Char → List Char → Bool
  | [], pat => pat.isEmpty
  | h :: t, pat => charsPre pat (h :: t) || charsContains t pat

/-- Python's `needle in hay` substring test. -/
def strContainsSub (hay needle : String) : Bool :=
  charsContains hay.toList needle.toList

/-- `charsSuf pat l` : `pat` is a final run of `l`. -/
def charsSuf (pat l : List Char) : Bool :=
  charsPre pat.reverse l.reverse

/-- Python `str.lower()` (ASCII range, which is all the crawler feeds it). -/
def strLower (s : String) : String :=
  String.mk (s.toList.map Char.toLower)

/-- Python `str.startswith(p)`. -/
def strStarts (s p : String) : Bool :=
  charsPre p.toList s.toList

/-- Python `str.endswith(p)`. -/
def strEnds (s p : String) : Bool :=
  charsSuf p.toList s.toList

/-- Python's whitespace predicate (`Py_UNICODE_ISSPACE`, the set stripped
by `str.strip()` and by `int()`): the code points for which CPython 3.11's
`str.isspace()` holds. -/
def pyIsSpace (c : Char) : Bool :=
  let n := c.toNat
  (0x9 ≤ n ∧ n ≤ 0xD) ∨ (0x1C ≤ n ∧ n ≤ 0x1F) ∨ n = 0x20 ∨ n = 0x85 ∨
    n = 0xA0 ∨ n = 0x1680 ∨ (0x2000 ≤ n ∧ n ≤ 0x200A) ∨ n = 0x2028 ∨
    n = 0x2029 ∨ n = 0x202F ∨ n = 0x205F ∨ n = 0x3000

/-- Python `str.strip()` with no argument: remove leading and trailing
whitespace (Python's Unicode whitespace set). -/
def strTrim (s : String) : String :=
  String.mk
    (((s.toList.dropWhile pyIsSpace).reverse.dropWhile pyIsSpace).reverse)

/-- Python `s.split(c)[0]` for a one-character separator: the characters
before the first occurrence of `c`. -/
def strTakeUntil (s : String) (c : Char) : String :=
  String.mk (s.toList.takeWhile (fun x => x ≠ c))

/-- Python `str.split(c)` for a one-character separator. -/
def splitOnChar (c : Char) : List Char → List (List Char)
  | [] => [[]]
  | x :: xs =>
    if x = c then [] :: splitOnChar c xs
    else
      match splitOnChar c xs with
      | [] => [[x]]
      | h :: t => (x :: h) :: t

/-- String wrapper of `splitOnChar`. -/
def strSplitOnChar (s : String) (c : Char) : List String :=
  (splitOnChar c s.toList).map String.mk

/-- Python `c.join(parts)` for a one-character separator. -/
def strJoinWith (sep : Char) : List String → String
  | [] => ""
  | [x] => x
  | x :: xs => x ++ String.mk [sep] ++ strJoinWith sep xs

/-- Split a character list at the first occurrence of `c` (delimiter dropped);
`none` when `c` does not occur. -/
def splitAtChar (c : Char) : List Char → Option (List Char × List Char)
  | [] => none
  | x :: xs =>
    if x = c then some ([], xs)
    else match splitAtChar c xs with
      | none => none
      | some (a, b) => some (x :: a, b)

/-- The result of `urllib.parse.urlsplit`: the five URL components the
crawler reads (`params` never matters for it, so the `urlsplit` view is used). -/
structure URLParts where
  scheme : String
  netloc : String
  path : String
  query : String
  fragment : String
deriving Repr, DecidableEq

/-- Characters allowed after the first character of a URL scheme
(`scheme_chars` in `urllib.parse`). -/
def isSchemeChar (c : Char) : Bool :=
  c.isAlphanum || c = '+' || c = '-' || c = '.'

/-- Consume the netloc after a leading `//`: everything up to the next
`/`, `?` or `#` (CPython `_splitnetloc`). Returns (netloc, remainder). -/
def takeNetloc : List Char → List Char × List Char
  | [] => ([], [])
  | x :: xs =>
    if x = '/' ∨ x = '?' ∨ x = '#' then ([], x :: xs)
    else
      let p := takeNetloc xs
      (x :: p.1, p.2)

/-- Model of CPython `urlsplit(url, scheme=default)`: scheme split off when the
text before the first `:` is a wellformed scheme (first char alphabetic, rest
`scheme_chars`), lowercased; netloc after `//`; fragment after the first `#`;
query after the first `?` of what remains. -/
def urlsplitD (url : String) (defaultScheme : String) : URLParts :=
  let cs := url.toList
  let (scheme, rest) :=
    match splitAtChar ':' cs with
    | some (before, after) =>
      match before with
      | [] => (defaultScheme.toList, cs)
      | c0 :: crest =>
        if c0.isAlpha ∧ crest.all isSchemeChar then
          ((c0 :: crest).map Char.toLower, after)
        else (defaultScheme.toList, cs)
    | none => (defaultScheme.toList, cs)
  let (netloc, rest) :=
    match rest with
    | '/' :: '/' :: r => takeNetloc r
    | _ => ([], rest)
  let (rest, fragment) :=
    match splitAtChar '#' rest with
    | some (a, b) => (a, b)
    | none => (rest, [])
  let (path, query) :=
    match splitAtChar '?' rest with
    | some (a, b) => (a, b)
    | none => (rest, [])
  { scheme := String.mk scheme
    netloc := String.mk netloc
    path := String.mk path
    query := String.mk query
    fragment := String.mk fragment }

/-- Model of `urllib.parse.urlparse` as the crawler uses it (components
`scheme`, `netloc`, `path`, `query`, `fragment`): the parse result of the
non-raising path.  Whether the call raises is `urlsplitRaises` below; no
caller reads the parse result when the call raises. -/
def urlparse (url : String) : URLParts := urlsplitD url ""

/-- CPython's `urlsplit` raises `ValueError("Invalid IPv6 URL")` when the
netloc contains `[` without `]` or `]` without `[`.  This predicate mirrors
that check (same scheme and netloc slicing as `urlsplitD`).  The further,
version-dependent validation of well-bracketed IPv6/IPvFuture hosts is not
modelled; no URL in this development has a well-bracketed host. -/
def urlsplitRaises (url : String) : Bool :=
  let cs := url.toList
  let rest :=
    match splitAtChar ':' cs with
    | some (before, after) =>
      match before with
      | [] => cs
      | c0 :: crest =>
        if c0.isAlpha ∧ crest.all isSchemeChar then after else cs
    | none => cs
  match rest with
  | '/' :: '/' :: r =>
    let netloc := (takeNetloc r).1
    (netloc.contains '[' && !(netloc.contains ']')) ||
      (netloc.contains ']' && !(netloc.contains '['))
  | _ => false

/-- Model of `urllib.parse.urlunsplit`. -/
def urlunsplit (p : URLParts) : String :=
  let url := p.path
  let url :=
    if p.netloc ≠ "" ∨ (url ≠ "" ∧ strStarts url "//") then
      let url := if url ≠ "" ∧ ¬ strStarts url "/" then "/" ++ url else url
      "//" ++ p.netloc ++ url
    else url
  let url := if p.scheme ≠ "" then p.scheme ++ ":" ++ url else url
  let url := if p.query ≠ "" then url ++ "?" ++ p.query else url
  if p.fragment ≠ "" then url ++ "#" ++ p.fragment else url

/-- `urllib.parse.uses_relative`. -/
def uses_relative : List String :=
  ["", "ftp", "http", "gopher", "nntp", "imap", "wais", "file", "https",
   "shttp", "mms", "prospero", "rtsp", "rtspu", "sftp", "svn", "svn+ssh",
   "ws", "wss"]

/-- `urllib.parse.uses_netloc`. -/
def uses_netloc : List String :=
  ["", "ftp", "http", "gopher", "nntp", "telnet", "imap", "wais", "file",
   "mms", "https", "shttp", "snews", "prospero", "rtsp", "rtspu", "rsync",
   "svn", "svn+ssh", "sftp", "nfs", "git", "git+ssh", "ws", "wss",
   "itms-services"]

/-- The slice assignment `segments[1:-1] = filter(None, segments[1:-1])` of
CPython's `urljoin`: drop empty segments strictly between the first and the
last element. -/
def filterMiddle : List String → List String
  | [] => []
  | [x] => [x]
  | x :: xs =>
    match xs.getLast? with
    | none => [x]
    | some last => x :: (xs.dropLast.filter (fun s => s ≠ "")) ++ [last]

/-- The dot-segment resolution loop of CPython's `urljoin` (`..` pops, `.` is
skipped, popping an empty stack is a no-op). -/
def resolveSegments (segments : List String) : List String :=
  segments.foldl
    (fun acc seg =>
      if seg = ".." then acc.dropLast
      else if seg = "." then acc
      else acc ++ [seg]) []

/-- The non-raising computation of `urllib.parse.urljoin(base, url)`
(CPython algorithm, `urlsplit` view of the components); only meaningful
when neither parse raises — `urljoin` below adds the raising behaviour. -/
def urljoinCore (base url : String) : String :=
  if base = "" then url
  else if url = "" then base
  else
    let b := urlparse base
    let u := urlsplitD url b.scheme
    if u.scheme ≠ b.scheme ∨ ¬ uses_relative.contains u.scheme then url
    else if uses_netloc.contains u.scheme ∧ u.netloc ≠ "" then
      urlunsplit u
    else
      let netloc := if uses_netloc.contains u.scheme then b.netloc else u.netloc
      if u.path = "" then
        let query := if u.query = "" then b.query else u.query
        urlunsplit ⟨u.scheme, netloc, b.path, query, u.fragment⟩
      else
        let base_parts := strSplitOnChar b.path '/'
        let base_parts :=
          if base_parts.getLast? ≠ some "" then base_parts.dropLast else base_parts
        let segments :=
          if strStarts u.path "/" then strSplitOnChar u.path '/'
          else filterMiddle (base_parts ++ strSplitOnChar u.path '/')
        let resolved := resolveSegments segments
        let resolved :=
          if segments.getLast? = some "." ∨ segments.getLast? = some ".." then
            resolved ++ [""]
          else resolved
        let joined := strJoinWith '/' resolved
        let path := if joined = "" then "/" else joined
        urlunsplit ⟨u.scheme, netloc, path, u.query, u.fragment⟩

/-- Model of `urllib.parse.urljoin(base, url)`.  The two emptiness early
returns happen before any parsing (as in CPython); after them both `base`
and `url` are parsed, so a `ValueError` from either parse — modelled as
`none` — propagates to the caller. -/
def urljoin (base url : String) : Option String :=
  if base = "" then some url
  else if url = "" then some base
  else if urlsplitRaises base || urlsplitRaises url then none
  else some (urljoinCore base url)

/-! ## The crawler (class `WebCrawler`, lines 23–226 of the script) -/

/-- `skip_extensions` (line 76). -/
def skip_extensions : List String :=
  [".pdf", ".jpg", ".jpeg", ".png", ".gif", ".zip", ".exe"]

/-- `WebCrawler.is_valid_url` (lines 54–83). `domain` is `self.domain`, the
netloc parsed from the start URL. The `try/except Exception: return False`
wrapper catches the `ValueError` that `urlparse` raises on a
bracket-malformed netloc — the first branch below.

Note the extension test is `url.lower().endswith(ext)` on the WHOLE url
string (line 77), not on its path component. -/
def is_valid_url (domain url : String) : Bool :=
  if urlsplitRaises url then false
  else
    let parsed_url := urlparse url
    if ¬ (parsed_url.scheme = "http" ∨ parsed_url.scheme = "https") then false
    else if parsed_url.netloc ≠ domain then false
    else if skip_extensions.any (fun ext => strEnds (strLower url) ext) then false
    else true

/-- The skip test of line 105: `not href or href.startswith(('#',
'javascript:', 'mailto:'))` (applied after `href.strip()`). -/
def skipRef (href : String) : Bool :=
  href = "" || strStarts href "#" || strStarts href "javascript:"
    || strStarts href "mailto:"

/-- Loop body of `WebCrawler.extract_links` (lines 101–116), with the page's
href attribute values given as a list (the HTML parser being the external
collaborator that produces them) and `links` the accumulator list being
grown in order.  The whole loop runs inside `try ... except Exception:
return []` (lines 96, 120–122): a `ValueError` raised by `urljoin` on a
malformed href aborts the loop and the function returns `[]` for the whole
page, discarding the links accumulated so far. -/
def extract_links_loop (domain current_url : String) :
    List String → List String → List String
  | [], links => links
  | link :: rest, links =>
    let href := strTrim link
    if skipRef href then
      extract_links_loop domain current_url rest links
    else
      match urljoin current_url href with
      | none => []
      | some absolute_url =>
        let absolute_url := strTakeUntil absolute_url '#'
        if is_valid_url domain absolute_url && !(links.contains absolute_url) then
          extract_links_loop domain current_url rest (links ++ [absolute_url])
        else
          extract_links_loop domain current_url rest links

/-- `WebCrawler.extract_links` (lines 85–118): hrefs of the parsed document
in document order, resolved, fragment-stripped, scope-filtered,
first-seen-deduplicated. -/
def extract_links (domain current_url : String) (hrefs : List String) :
    List String :=
  extract_links_loop domain current_url hrefs []

/-- An HTTP response as the crawler reads it: `status_code`,
`headers.get('content-type', '')`, the href values its body yields under
`extract_links`' parser, and `response.url` (the final URL after redirects —
which the script never reads). -/
structure HTTPResponse where
  status_code : Nat
  content_type : String
  hrefs : List String
  final_url : String
deriving Repr, DecidableEq

/-- Outcome of `self.session.get(url, timeout=10, allow_redirects=True)`:
a response, or one of the exceptions handled at lines 159–167. -/
inductive FetchOutcome where
  | ok (response : HTTPResponse)
  | timeout
  | connectionError
  | otherError
deriving Repr, DecidableEq

/-- The success test of `crawl_page` (lines 141–147): HTTP 200 and a
content-type containing `text/html` (case-insensitively). -/
def isHtmlSuccess : FetchOutcome → Bool
  | .ok r => r.status_code = 200 && strContainsSub (strLower r.content_type) "text/html"
  | _ => false

/-- Crawler state: `self.visited` as its insertion history, `self.crawled_urls`,
and an observation log of the URLs passed to `session.get` in order. -/
structure CrawlState where
  visited : List String
  crawled_urls : List String
  fetch_log : List String
deriving Repr, DecidableEq

/-- `WebCrawler.crawl_page` (lines 124–167). Returns the extracted links and
the updated state. The fetch is logged at the moment `session.get` runs;
`self.crawled_urls.append(url)` happens only on the HTML-success path, and
every handled exception yields `[]`. Note line 152 resolves links against
`url`, the requested URL, not `response.url`. -/
def crawl_page (domain : String) (fetch : String → FetchOutcome) (url : String)
    (st : CrawlState) : List String × CrawlState :=
  let st := { st with fetch_log := st.fetch_log ++ [url] }
  match fetch url with
  | .ok response =>
    if response.status_code ≠ 200 then ([], st)
    else
      let content_type := strLower response.content_type
      if ¬ strContainsSub content_type "text/html" then ([], st)
      else
        let links := extract_links domain url response.hrefs
        (links, { st with crawled_urls := st.crawled_urls ++ [url] })
  | .timeout => ([], st)
  | .connectionError => ([], st)
  | .otherError => ([], st)

mutual

/-- `WebCrawler.crawl_recursive` (lines 169–199). The `for link in links`
loop is `crawl_links`. `time.sleep` is a pure no-op in the model. -/
def crawl_recursive (domain : String) (fetch : String → FetchOutcome)
    (max_depth : Nat) (url : String) (current_depth : Nat) (st : CrawlState) :
    CrawlState :=
  if current_depth > max_depth then st
  else if st.visited.contains url then st
  else
    let st1 : CrawlState := { st with visited := st.visited ++ [url] }
    let r := crawl_page domain fetch url st1
    if h : current_depth < max_depth then
      crawl_links domain fetch max_depth r.1 (current_depth + 1) r.2
    else r.2
termination_by (max_depth + 1 - current_depth, 0)
decreasing_by simp_wf; omega

/-- The `for link in links: if link not in self.visited: crawl_recursive`
loop (lines 197–199). -/
def crawl_links (domain : String) (fetch : String → FetchOutcome)
    (max_depth : Nat) (links : List String) (current_depth : Nat)
    (st : CrawlState) : CrawlState :=
  match links with
  | [] => st
  | link :: rest =>
    let st' :=
      if st.visited.contains link then st
      else crawl_recursive domain fetch max_depth link current_depth st
    crawl_links domain fetch max_depth rest current_depth st'
termination_by (max_depth + 1 - current_depth, links.length + 1)
decreasing_by all_goals simp_wf; omega

end

/-- The `WebCrawler` object: constructor arguments plus the HTTP session
modelled as a fetch oracle. -/
structure WebCrawler where
  start_url : String
  max_depth : Nat
  fetch : String → FetchOutcome

/-- `self.domain = urlparse(start_url).netloc` (line 46). -/
def WebCrawler.domain (c : WebCrawler) : String := (urlparse c.start_url).netloc

/-- `WebCrawler.start_crawl` (lines 201–226): run `crawl_recursive` from the
seed at depth 0 with fresh state. -/
def WebCrawler.start_crawl (c : WebCrawler) : CrawlState :=
  crawl_recursive c.domain c.fetch c.max_depth c.start_url 0 ⟨[], [], []⟩

/-! ## Fuel-indexed variant of the traversal

`crawl_recursive` above is defined by well-founded recursion, exactly
mirroring the Python call structure.  The fuel-indexed variant below is the
same traversal with an explicit bound on the recursion (call-stack) depth:
`none` means the fuel was exhausted.  It recurses structurally on the fuel,
and the agreement theorem proved later shows that fuel `max_depth + 1`
always suffices — the termination statement for the recursion. -/

/-- The link loop of the traversal, parametrized by the recursive call used
for unvisited links; `none` propagates fuel exhaustion. -/
def crawl_links_via (recur : String → Nat → CrawlState → Option CrawlState) :
    List String → Nat → CrawlState → Option CrawlState
  | [], _, st => some st
  | link :: rest, current_depth, st =>
    match (if st.visited.contains link then some st
           else recur link current_depth st) with
    | none => none
    | some st' => crawl_links_via recur rest current_depth st'

/-- `crawl_recursive` with explicit fuel bounding the recursion depth. -/
def crawl_recursive_fuel (domain : String) (fetch : String → FetchOutcome)
    (max_depth : Nat) : Nat → String → Nat → CrawlState → Option CrawlState
  | 0, _, _, _ => none
  | fuel + 1, url, current_depth, st =>
    if current_depth > max_depth then some st
    else if st.visited.contains url then some st
    else
      let st1 : CrawlState := { st with visited := st.visited ++ [url] }
      let r := crawl_page domain fetch url st1
      if current_depth < max_depth then
        crawl_links_via
          (fun u d s => crawl_recursive_fuel domain fetch max_depth fuel u d s)
          r.1 (current_depth + 1) r.2
      else some r.2

/-! ## A restatement of the link extractor from the spec's words

`extractLinksSpec` is NOT a translation of the source; it follows the
specification text of section 4.2 (and the C7 claim) literally: trim every
reference, skip the empty/`#`/`javascript:`/`mailto:` ones, resolve each
survivor against the base URL and strip the fragment after resolution, keep
only the ones the scope filter accepts, and deduplicate keeping the first
occurrence.  The spec says nothing about a reference whose resolution
raises, so the pipeline simply passes over it (`filterMap`); the
comparison theorem assumes no resolution raises, and the counterexample
shows the program diverging from this pipeline when one does.  It exists to
be compared with `extract_links`. -/

/-- First-seen deduplication: keep the first occurrence of each element,
in order of first appearance (`acc` is the output built so far). -/
def dedupFirstSeenGo : List String → List String → List String
  | [], acc => acc
  | x :: xs, acc =>
    if acc.contains x then dedupFirstSeenGo xs acc
    else dedupFirstSeenGo xs (acc ++ [x])

/-- First-seen deduplication of a list. -/
def dedupFirstSeen (l : List String) : List String := dedupFirstSeenGo l []

/-- The link-extraction pipeline as the spec words it (section 4.2). -/
def extractLinksSpec (domain current_url : String) (hrefs : List String) :
    List String :=
  dedupFirstSeen
    ((((hrefs.map strTrim).filter (fun h => !(skipRef h))).filterMap
        (fun h => (urljoin current_url h).map
          (fun a => strTakeUntil a '#'))).filter
      (fun u => is_valid_url domain u))

/-! ## The `main` entry point (lines 229–268) -/

/-- Base code points of the Unicode `Nd` decimal-digit runs (each base
starts a run of ten code points with decimal values 0–9), as enumerated by
CPython 3.11's `unicodedata`.  Python's `int()` accepts any of these as a
digit (`Py_UNICODE_TODECIMAL`), e.g. `int("٢") = 2`. -/
def ndDigitBases : List Nat :=
  [0x30, 0x660, 0x6F0, 0x7C0, 0x966, 0x9E6, 0xA66, 0xAE6,
   0xB66, 0xBE6, 0xC66, 0xCE6, 0xD66, 0xDE6, 0xE50, 0xED0,
   0xF20, 0x1040, 0x1090, 0x17E0, 0x1810, 0x1946, 0x19D0, 0x1A80,
   0x1A90, 0x1B50, 0x1BB0, 0x1C40, 0x1C50, 0xA620, 0xA8D0, 0xA900,
   0xA9D0, 0xA9F0, 0xAA50, 0xABF0, 0xFF10, 0x104A0, 0x10D30, 0x11066,
   0x110F0, 0x11136, 0x111D0, 0x112F0, 0x11450, 0x114D0, 0x11650, 0x116C0,
   0x11730, 0x118E0, 0x11950, 0x11C50, 0x11D50, 0x11DA0, 0x16A60, 0x16AC0,
   0x16B50, 0x1D7CE, 0x1D7D8, 0x1D7E2, 0x1D7EC, 0x1D7F6, 0x1E140, 0x1E2F0,
   0x1E950, 0x1FBF0]

/-- The decimal value of a character for Python `int()`: defined exactly on
the Unicode `Nd` digits. -/
def pyDigitVal (c : Char) : Option Nat :=
  let n := c.toNat
  match ndDigitBases.find? (fun b => decide (b ≤ n ∧ n < b + 10)) with
  | some b => some (n - b)
  | none => none

/-- Validity of a digit run for Python `int()`: decimal digits with single
underscores strictly between digits (PEP 515). -/
def pyDigitsRest : List Char → Bool
  | [] => true
  | '_' :: [] => false
  | '_' :: c :: rest => (pyDigitVal c).isSome && pyDigitsRest rest
  | c :: rest => (pyDigitVal c).isSome && pyDigitsRest rest

/-- A non-empty valid digit run (first character must be a digit). -/
def pyDigits : List Char → Bool
  | [] => false
  | c :: rest => (pyDigitVal c).isSome && pyDigitsRest rest

/-- Numeric value of a digit run, ignoring underscores. -/
def digitsToNat (cs : List Char) : Nat :=
  cs.foldl
    (fun acc c => if c = '_' then acc else acc * 10 + (pyDigitVal c).getD 0) 0

/-- Model of Python `int(s)` on decimal strings: strip whitespace, optional
sign, then a valid digit run; `none` models the `ValueError`. -/
def pyInt (s : String) : Option Int :=
  match (strTrim s).toList with
  | '+' :: rest => if pyDigits rest then some (digitsToNat rest : Int) else none
  | '-' :: rest => if pyDigits rest then some (-(digitsToNat rest : Int)) else none
  | rest => if pyDigits rest then some (digitsToNat rest : Int) else none

/-- `max_depth = int(depth_input) if depth_input else 2` (line 248), on the
already-stripped depth input; `none` is the `ValueError` branch. -/
def parsedDepth (depthInput : String) : Option Int :=
  if strTrim depthInput = "" then some 2 else pyInt (strTrim depthInput)

/-- What `main` observably produces: the process exit code (0 for a normal
`return`, 1 for `sys.exit(1)`), and the crawled-URL list when a crawl ran
(`none` when `main` exited before creating the crawler). -/
structure MainResult where
  exitCode : Nat
  crawled : Option (List String)
deriving Repr, DecidableEq

/-- Lines 235 and 241–243 of `main`: strip the URL input and prefix
`https://` when no scheme prefix is present. -/
def prefixedUrl (urlInput : String) : String :=
  let url := strTrim urlInput
  if strStarts url "http://" || strStarts url "https://" then url
  else "https://" ++ url

/-- `main` (lines 229–268).  `interrupt` models a `KeyboardInterrupt` raised
while `crawl_recursive` runs: `start_crawl` catches it (line 221) and
returns `self.crawled_urls` as accumulated at that moment, which the oracle
supplies as `some st`; `none` means the crawl ran to completion.

The `WebCrawler` constructor (line 257) calls `urlparse(start_url)` with no
guard (line 44); when that raises — a bracket-malformed seed — the
exception reaches `main`'s `except Exception` handler (lines 266–268) and
the process exits 1 before any crawl work: the `urlsplitRaises` branch.
Nothing else inside `main`'s `try` raises deterministically (`start_crawl`
catches everything from the traversal), so the only unmodelled paths are
interrupts outside the crawl phase. -/
def mainRun (urlInput depthInput : String) (fetch : String → FetchOutcome)
    (interrupt : Option CrawlState) : MainResult :=
  if strTrim urlInput = "" then { exitCode := 1, crawled := none }
  else
    let url := prefixedUrl urlInput
    match parsedDepth depthInput with
    | none => { exitCode := 1, crawled := none }
    | some max_depth =>
      if max_depth < 0 then { exitCode := 1, crawled := none }
      else if urlsplitRaises url then { exitCode := 1, crawled := none }
      else
        let crawler : WebCrawler := ⟨url, max_depth.toNat, fetch⟩
        let crawled_urls :=
          match interrupt with
          | some st => st.crawled_urls
          | none => crawler.start_crawl.crawled_urls
        { exitCode := 0, crawled := some crawled_urls }

/-- The input-validation conditions of `main` (lines 237, 249, 252): empty
URL, non-numeric depth, or negative depth. -/
def invalidInput (urlInput depthInput : String) : Bool :=
  if strTrim urlInput = "" then true
  else
    match parsedDepth depthInput with
    | none => true
    | some d => d < 0

/-! ## Concrete fixtures used by witnesses and counterexamples -/

/-- Oracle: every URL answers HTTP 200, `text/html`, a page with no links. -/
def fetchOkNoLinks : String → FetchOutcome :=
  fun _ => .ok ⟨200, "text/html", [], ""⟩

/-- Oracle for the redirect scenario: the response's final URL (after
redirects) differs from the requested one, and the page holds one relative
link. -/
def fetchRedirected : String → FetchOutcome :=
  fun _ => .ok ⟨200, "text/html", ["page"], "https://example.com/redirected/"⟩

/-- Oracle: the seed links to `page2` (and a few out-of-scope references);
every other page has no links. -/
def fetchSeedLinks : String → FetchOutcome :=
  fun u =>
    if u = "https://example.com" then
      .ok ⟨200, "text/html", ["page2", "a.pdf", "https://other.com/x"], ""⟩
    else .ok ⟨200, "text/html", [], ""⟩

/-- Oracle: every fetch times out. -/
def fetchTimesOut : String → FetchOutcome := fun _ => .timeout

/-- A crawler whose seed URL itself ends in `.pdf`. -/
def pdfSeedCrawler : WebCrawler := ⟨"https://example.com/a.pdf", 0, fetchOkNoLinks⟩

/-- A depth-1 crawler over the `fetchSeedLinks` oracle. -/
def seedLinksCrawler : WebCrawler := ⟨"https://example.com", 1, fetchSeedLinks⟩

/-- A depth-0 crawler whose seed fetch succeeds with HTML. -/
def seedZeroCrawler : WebCrawler := ⟨"https://example.com", 0, fetchOkNoLinks⟩

/-- A depth-0 crawler whose seed fetch times out. -/
def seedTimeoutCrawler : WebCrawler := ⟨"https://example.com", 0, fetchTimesOut⟩

/-- The crawl-long state invariant behind the at-most-once-fetch property:
the fetch log is exactly the visited-set insertion history, that history
has no duplicates, and the output list is a sublist of it. -/
def StateInv (st : CrawlState) : Prop :=
  st.fetch_log = st.visited ∧ st.visited.Nodup ∧
    List.Sublist st.crawled_urls st.visited

/-- Scope property of a URL list relative to a crawl: every member is the
seed or passes the scope filter. -/
def ScopeOk (domain seed : String) (l : List String) : Prop :=
  ∀ u ∈ l, u = seed ∨ is_valid_url domain u = true

/-! ## Lemmas about `crawl_page` and `extract_links` -/

/-- `crawl_page` in closed form: it always logs the fetch; on an HTML
success it appends the URL to the output and returns the links extracted
against the REQUESTED url; on every other outcome it returns no links and
appends nothing. -/
theorem crawl_page_eq (domain : String) (fetch : String → FetchOutcome)
    (url : String) (st : CrawlState) :
    crawl_page domain fetch url st =
      if isHtmlSuccess (fetch url) then
        (extract_links domain url
            (match fetch url with | .ok r => r.hrefs | _ => []),
          { st with fetch_log := st.fetch_log ++ [url],
                    crawled_urls := st.crawled_urls ++ [url] })
      else ([], { st with fetch_log := st.fetch_log ++ [url] }) := by
  cases h : fetch url with
  | ok r =>
    by_cases h200 : r.status_code = 200
    · by_cases hct : strContainsSub (strLower r.content_type) "text/html"
      · simp [crawl_page, isHtmlSuccess, h, h200, hct]
      · simp [crawl_page, isHtmlSuccess, h, h200, hct]
    · simp [crawl_page, isHtmlSuccess, h, h200]
  | timeout => simp [crawl_page, isHtmlSuccess, h]
  | connectionError => simp [crawl_page, isHtmlSuccess, h]
  | otherError => simp [crawl_page, isHtmlSuccess, h]

/-- Every URL the link-extraction loop adds to its accumulator passes the
scope filter (the exception path returns `[]`, which adds nothing). -/
theorem extract_links_loop_mem (domain current_url : String) :
    ∀ hrefs acc u, u ∈ extract_links_loop domain current_url hrefs acc →
      u ∈ acc ∨ is_valid_url domain u = true := by
  intro hrefs
  induction hrefs with
  | nil => intro acc u h; exact Or.inl h
  | cons l rest ih =>
    intro acc u h
    unfold extract_links_loop at h
    by_cases hskip : skipRef (strTrim l)
    · simp only [hskip, if_true] at h
      exact ih acc u h
    · simp only [hskip] at h
      cases hj : urljoin current_url (strTrim l) with
      | none =>
        rw [hj] at h
        exact absurd h (List.not_mem_nil u)
      | some a =>
        rw [hj] at h
        simp only at h
        set v := strTakeUntil a '#' with hv
        by_cases hcond : is_valid_url domain v && !(acc.contains v)
        · simp only [hcond, if_true] at h
          rcases ih _ u h with h' | h'
          · rcases List.mem_append.mp h' with h'' | h''
            · exact Or.inl h''
            · right
              rw [List.mem_singleton.mp h'']
              rw [Bool.and_eq_true] at hcond
              exact hcond.1
          · exact Or.inr h'
        · simp only [hcond, if_false] at h
          exact ih acc u h

/-- The link-extraction loop preserves freedom from duplicates (the
exception path returns `[]`, trivially duplicate-free). -/
theorem extract_links_loop_nodup (domain current_url : String) :
    ∀ hrefs acc, acc.Nodup →
      (extract_links_loop domain current_url hrefs acc).Nodup := by
  intro hrefs
  induction hrefs with
  | nil => intro acc h; exact h
  | cons l rest ih =>
    intro acc hacc
    unfold extract_links_loop
    by_cases hskip : skipRef (strTrim l)
    · simp only [hskip, if_true]
      exact ih acc hacc
    · simp only [hskip]
      cases hj : urljoin current_url (strTrim l) with
      | none => exact List.nodup_nil
      | some a =>
        simp only
        set v := strTakeUntil a '#' with hv
        by_cases hcond : is_valid_url domain v && !(acc.contains v)
        · simp only [hcond, if_true]
          refine ih _ ?_
          have hnc : ¬ v ∈ acc := by
            rw [Bool.and_eq_true] at hcond
            have h2 := hcond.2
            simp only [Bool.not_eq_true'] at h2
            intro hmem
            have h3 : acc.contains v = true := List.elem_iff.mpr hmem
            rw [h2] at h3
            exact Bool.false_ne_true h3
          simp [List.nodup_append, hacc, hnc]
        · simp only [hcond, if_false]
          exact ih acc hacc

/-- When no reference of the page makes resolution raise, the loop
coincides with the spec pipeline (trim, skip, resolve and strip fragments,
scope-filter, then first-seen deduplication), for any accumulator. -/
theorem extract_links_loop_spec (domain current_url : String) :
    ∀ hrefs acc,
      (∀ h ∈ hrefs, skipRef (strTrim h) = false →
        (urljoin current_url (strTrim h)).isSome = true) →
      extract_links_loop domain current_url hrefs acc =
        dedupFirstSeenGo
          ((((hrefs.map strTrim).filter (fun h => !(skipRef h))).filterMap
              (fun h => (urljoin current_url h).map
                (fun a => strTakeUntil a '#'))).filter
            (fun u => is_valid_url domain u)) acc := by
  intro hrefs
  induction hrefs with
  | nil => intro acc _; simp [extract_links_loop, dedupFirstSeenGo]
  | cons l rest ih =>
    intro acc hok
    have hokrest : ∀ h ∈ rest, skipRef (strTrim h) = false →
        (urljoin current_url (strTrim h)).isSome = true :=
      fun h hm => hok h (List.mem_cons_of_mem _ hm)
    unfold extract_links_loop
    by_cases hskip : skipRef (strTrim l)
    · simp only [hskip, if_true, List.map_cons, List.filter_cons,
        Bool.not_true, Bool.false_eq_true, if_false]
      exact ih acc hokrest
    · have hskip' : skipRef (strTrim l) = false := by
        simpa using hskip
      obtain ⟨a, hj⟩ := Option.isSome_iff_exists.mp
        (hok l (List.mem_cons_self l rest) hskip')
      simp only [hskip', Bool.false_eq_true, if_false, hj, List.map_cons,
        List.filter_cons, Bool.not_false, if_true, List.filterMap_cons,
        Option.map_some']
      set v := strTakeUntil a '#' with hv
      by_cases hval : is_valid_url domain v
      · simp only [← hv, hval, if_true]
        by_cases hmem : acc.contains v
        · simp only [hval, hmem, Bool.not_true, Bool.and_false,
            Bool.false_eq_true, if_false, dedupFirstSeenGo, if_true]
          exact ih acc hokrest
        · have hmem' : acc.contains v = false := by simpa using hmem
          simp only [hval, hmem', Bool.not_false, Bool.and_true, if_true,
            dedupFirstSeenGo, Bool.false_eq_true, if_false]
          exact ih (acc ++ [v]) hokrest
      · have hval' : is_valid_url domain v = false := by simpa using hval
        simp only [← hv, hval', Bool.false_and, Bool.false_eq_true, if_false]
        exact ih acc hokrest

/-! ## Agreement between the traversal and its fuel-indexed variant -/

/-- Any fuel strictly above `max_depth - current_depth` suffices: the
fuel-indexed traversal completes (`some`) and computes exactly
`crawl_recursive` / `crawl_links`. -/
theorem crawl_agree (domain : String) (fetch : String → FetchOutcome)
    (max_depth : Nat) :
    ∀ fuel,
      (∀ url current_depth st, max_depth - current_depth < fuel →
        crawl_recursive_fuel domain fetch max_depth fuel url current_depth st =
          some (crawl_recursive domain fetch max_depth url current_depth st)) ∧
      (∀ links current_depth st, max_depth - current_depth < fuel →
        crawl_links_via
            (fun u d s => crawl_recursive_fuel domain fetch max_depth fuel u d s)
            links current_depth st =
          some (crawl_links domain fetch max_depth links current_depth st)) := by
  intro fuel
  induction fuel with
  | zero => constructor <;> intro _ _ _ h <;> omega
  | succ fuel ih =>
    have hrec : ∀ url current_depth st,
        max_depth - current_depth < fuel + 1 →
        crawl_recursive_fuel domain fetch max_depth (fuel + 1) url
            current_depth st =
          some (crawl_recursive domain fetch max_depth url current_depth st) := by
      intro url d st hd
      unfold crawl_recursive_fuel crawl_recursive
      by_cases h1 : d > max_depth
      · simp [h1]
      · by_cases h2 : url ∈ st.visited
        · simp [h1, h2]
        · by_cases h3 : d < max_depth
          · simp only [List.elem_iff, h1, h2, h3, if_true, if_false,
              dif_pos, ite_false, ite_true, iff_false, Bool.false_eq_true]
            · exact ih.2 _ (d + 1) _ (by omega)
          · simp [h1, h2, h3]
    refine ⟨hrec, ?_⟩
    intro links d st hd
    induction links generalizing st with
    | nil => simp [crawl_links_via, crawl_links]
    | cons l rest ihl =>
      unfold crawl_links_via crawl_links
      by_cases hv : l ∈ st.visited
      · simp only [List.elem_iff, hv, if_true]
        exact ihl _
      · simp only [List.elem_iff, hv, if_false]
        rw [hrec l d st hd]
        exact ihl _

/-- Fuel `max_depth + 1` always suffices, from any depth. -/
theorem crawl_agree_total (domain : String) (fetch : String → FetchOutcome)
    (max_depth : Nat) (url : String) (current_depth : Nat) (st : CrawlState) :
    crawl_recursive_fuel domain fetch max_depth (max_depth + 1) url
        current_depth st =
      some (crawl_recursive domain fetch max_depth url current_depth st) :=
  (crawl_agree domain fetch max_depth (max_depth + 1)).1 url current_depth st
    (by omega)

/-! ## Invariant preservation along the traversal -/

/-- `crawl_page` always appends exactly the fetched URL to the fetch log. -/
theorem crawl_page_log (domain : String) (fetch : String → FetchOutcome)
    (url : String) (st : CrawlState) :
    (crawl_page domain fetch url st).2.fetch_log = st.fetch_log ++ [url] := by
  rw [crawl_page_eq]
  by_cases hs : isHtmlSuccess (fetch url) = true <;> simp [hs]

/-- `crawl_page` leaves the visited set untouched. -/
theorem crawl_page_visited (domain : String) (fetch : String → FetchOutcome)
    (url : String) (st : CrawlState) :
    (crawl_page domain fetch url st).2.visited = st.visited := by
  rw [crawl_page_eq]
  by_cases hs : isHtmlSuccess (fetch url) = true <;> simp [hs]

/-- `crawl_page` appends at most the fetched URL to the output list. -/
theorem crawl_page_crawled (domain : String) (fetch : String → FetchOutcome)
    (url : String) (st : CrawlState) :
    (crawl_page domain fetch url st).2.crawled_urls = st.crawled_urls ∨
    (crawl_page domain fetch url st).2.crawled_urls = st.crawled_urls ++ [url] := by
  rw [crawl_page_eq]
  by_cases hs : isHtmlSuccess (fetch url) = true <;> simp [hs]

/-- Every link `crawl_page` returns passes the scope filter. -/
theorem crawl_page_links_valid (domain : String) (fetch : String → FetchOutcome)
    (url : String) (st : CrawlState) :
    ∀ u ∈ (crawl_page domain fetch url st).1, is_valid_url domain u = true := by
  rw [crawl_page_eq]
  by_cases hs : isHtmlSuccess (fetch url) = true
  · simp only [hs, if_true]
    intro u hu
    rcases extract_links_loop_mem domain url _ [] u hu with h | h
    · cases h
    · exact h
  · simp [hs]

/-- Marking an unvisited URL and fetching it preserves `StateInv`. -/
theorem crawl_page_step_inv (domain : String) (fetch : String → FetchOutcome)
    (url : String) (st : CrawlState) (hnm : url ∉ st.visited)
    (hinv : StateInv st) :
    StateInv
      (crawl_page domain fetch url
        { st with visited := st.visited ++ [url] }).2 := by
  obtain ⟨hlog, hnd, hsub⟩ := hinv
  rw [crawl_page_eq]
  by_cases hs : isHtmlSuccess (fetch url) = true
  · simp only [hs, if_true]
    refine ⟨?_, ?_, ?_⟩
    · simp [hlog]
    · simp [List.nodup_append, hnd, hnm]
    · exact List.Sublist.append hsub (List.Sublist.refl _)
  · simp only [hs, Bool.false_eq_true, if_false]
    refine ⟨?_, ?_, ?_⟩
    · simp [hlog]
    · simp [List.nodup_append, hnd, hnm]
    · exact hsub.trans (List.sublist_append_left _ _)

/-- The fuel-indexed traversal preserves `StateInv`. -/
theorem crawl_fuel_inv (domain : String) (fetch : String → FetchOutcome)
    (max_depth : Nat) :
    ∀ fuel,
      (∀ url current_depth st st',
        crawl_recursive_fuel domain fetch max_depth fuel url current_depth st =
          some st' → StateInv st → StateInv st') ∧
      (∀ links current_depth st st',
        crawl_links_via
            (fun u d s => crawl_recursive_fuel domain fetch max_depth fuel u d s)
            links current_depth st = some st' →
        StateInv st → StateInv st') := by
  intro fuel
  induction fuel with
  | zero =>
    constructor
    · intro url d st st' h
      simp [crawl_recursive_fuel] at h
    · intro links d
      induction links with
      | nil =>
        intro st st' h hinv
        simp only [crawl_links_via] at h
        rwa [← Option.some.inj h]
      | cons l rest ihl =>
        intro st st' h hinv
        unfold crawl_links_via at h
        by_cases hv : l ∈ st.visited
        · simp only [List.elem_iff, hv, if_true] at h
          exact ihl st st' h hinv
        · simp [List.elem_iff, hv, crawl_recursive_fuel] at h
  | succ fuel ih =>
    have hrec : ∀ url current_depth st st',
        crawl_recursive_fuel domain fetch max_depth (fuel + 1) url
            current_depth st = some st' → StateInv st → StateInv st' := by
      intro url d st st' h hinv
      unfold crawl_recursive_fuel at h
      by_cases h1 : d > max_depth
      · simp only [h1, if_true] at h
        rwa [← Option.some.inj h]
      · by_cases h2 : url ∈ st.visited
        · simp only [List.elem_iff, h1, h2, if_true, if_false] at h
          rwa [← Option.some.inj h]
        · have hinv2 := crawl_page_step_inv domain fetch url st h2 hinv
          by_cases h3 : d < max_depth
          · simp only [List.elem_iff, h1, h2, h3, if_true, if_false,
              Bool.false_eq_true, iff_false] at h
            exact ih.2 _ (d + 1) _ st' h hinv2
          · simp only [List.elem_iff, h1, h2, h3, if_true, if_false,
              Bool.false_eq_true, iff_false] at h
            rwa [← Option.some.inj h]
    refine ⟨hrec, ?_⟩
    intro links d
    induction links with
    | nil =>
      intro st st' h hinv
      simp only [crawl_links_via] at h
      rwa [← Option.some.inj h]
    | cons l rest ihl =>
      intro st st' h hinv
      unfold crawl_links_via at h
      by_cases hv : l ∈ st.visited
      · simp only [List.elem_iff, hv, if_true] at h
        exact ihl st st' h hinv
      · simp only [List.elem_iff, hv, if_false, iff_false] at h
        cases hmid : crawl_recursive_fuel domain fetch max_depth (fuel + 1) l
            d st with
        | none => rw [hmid] at h; cases h
        | some stm =>
          rw [hmid] at h
          exact ihl stm st' h (hrec l d st stm hmid hinv)

/-- The fuel-indexed traversal only ever appends the URL it was called on or
scope-filtered URLs to the output list. -/
theorem crawl_fuel_scope (domain : String) (fetch : String → FetchOutcome)
    (max_depth : Nat) (seed : String) :
    ∀ fuel,
      (∀ url current_depth st st',
        crawl_recursive_fuel domain fetch max_depth fuel url current_depth st =
          some st' →
        (url = seed ∨ is_valid_url domain url = true) →
        ScopeOk domain seed st.crawled_urls →
        ScopeOk domain seed st'.crawled_urls) ∧
      (∀ links current_depth st st',
        crawl_links_via
            (fun u d s => crawl_recursive_fuel domain fetch max_depth fuel u d s)
            links current_depth st = some st' →
        ScopeOk domain seed links →
        ScopeOk domain seed st.crawled_urls →
        ScopeOk domain seed st'.crawled_urls) := by
  intro fuel
  induction fuel with
  | zero =>
    constructor
    · intro url d st st' h
      simp [crawl_recursive_fuel] at h
    · intro links d
      induction links with
      | nil =>
        intro st st' h _ hsc
        simp only [crawl_links_via] at h
        rwa [← Option.some.inj h]
      | cons l rest ihl =>
        intro st st' h hlk hsc
        unfold crawl_links_via at h
        by_cases hv : l ∈ st.visited
        · simp only [List.elem_iff, hv, if_true] at h
          exact ihl st st' h (fun u hu => hlk u (List.mem_cons_of_mem _ hu)) hsc
        · simp [List.elem_iff, hv, crawl_recursive_fuel] at h
  | succ fuel ih =>
    have hrec : ∀ url current_depth st st',
        crawl_recursive_fuel domain fetch max_depth (fuel + 1) url
            current_depth st = some st' →
        (url = seed ∨ is_valid_url domain url = true) →
        ScopeOk domain seed st.crawled_urls →
        ScopeOk domain seed st'.crawled_urls := by
      intro url d st st' h hurl hsc
      unfold crawl_recursive_fuel at h
      by_cases h1 : d > max_depth
      · simp only [h1, if_true] at h
        rwa [← Option.some.inj h]
      · by_cases h2 : url ∈ st.visited
        · simp only [List.elem_iff, h1, h2, if_true, if_false] at h
          rwa [← Option.some.inj h]
        · have hsc2 : ScopeOk domain seed
              (crawl_page domain fetch url
                { st with visited := st.visited ++ [url] }).2.crawled_urls := by
            rcases crawl_page_crawled domain fetch url
                { st with visited := st.visited ++ [url] } with hc | hc
            · rw [hc]; exact hsc
            · rw [hc]
              intro u hu
              rcases List.mem_append.mp hu with h' | h'
              · exact hsc u h'
              · rw [List.mem_singleton.mp h']; exact hurl
          have hlk2 : ScopeOk domain seed
              (crawl_page domain fetch url
                { st with visited := st.visited ++ [url] }).1 :=
            fun u hu => Or.inr (crawl_page_links_valid domain fetch url _ u hu)
          by_cases h3 : d < max_depth
          · simp only [List.elem_iff, h1, h2, h3, if_true, if_false,
              Bool.false_eq_true, iff_false] at h
            exact ih.2 _ (d + 1) _ st' h hlk2 hsc2
          · simp only [List.elem_iff, h1, h2, h3, if_true, if_false,
              Bool.false_eq_true, iff_false] at h
            rwa [← Option.some.inj h]
    refine ⟨hrec, ?_⟩
    intro links d
    induction links with
    | nil =>
      intro st st' h _ hsc
      simp only [crawl_links_via] at h
      rwa [← Option.some.inj h]
    | cons l rest ihl =>
      intro st st' h hlk hsc
      unfold crawl_links_via at h
      by_cases hv : l ∈ st.visited
      · simp only [List.elem_iff, hv, if_true] at h
        exact ihl st st' h (fun u hu => hlk u (List.mem_cons_of_mem _ hu)) hsc
      · simp only [List.elem_iff, hv, if_false, iff_false] at h
        cases hmid : crawl_recursive_fuel domain fetch max_depth (fuel + 1) l
            d st with
        | none => rw [hmid] at h; cases h
        | some stm =>
          rw [hmid] at h
          exact ihl stm st' h (fun u hu => hlk u (List.mem_cons_of_mem _ hu))
            (hrec l d st stm hmid (hlk l (List.mem_cons_self _ _)) hsc)

/-- Evaluation principle for `start_crawl` through the fuel-indexed
traversal: a kernel-computable replay of the crawl determines its result. -/
theorem start_crawl_eval (c : WebCrawler) (st' : CrawlState)
    (h : crawl_recursive_fuel c.domain c.fetch c.max_depth (c.max_depth + 1)
        c.start_url 0 ⟨[], [], []⟩ = some st') :
    c.start_crawl = st' := by
  have h2 := crawl_agree_total c.domain c.fetch c.max_depth c.start_url 0
    ⟨[], [], []⟩
  rw [h] at h2
  unfold WebCrawler.start_crawl
  exact (Option.some.inj h2).symm

/-! ## The claims -/

/-- Claim C1, counterexample.  The claim says every URL in the output —
"including the seed URL itself" — satisfied the scope filter.  The code
never runs `is_valid_url` on the seed: a crawl seeded at
`https://example.com/a.pdf` (denylisted extension) still fetches the seed
and, on an HTML success, records it, although the scope filter rejects it. -/
theorem crawl_scope_counterexample :
    pdfSeedCrawler.start_crawl.crawled_urls = ["https://example.com/a.pdf"] ∧
    is_valid_url pdfSeedCrawler.domain "https://example.com/a.pdf" = false := by
  constructor
  · rw [start_crawl_eval pdfSeedCrawler
      ⟨["https://example.com/a.pdf"], ["https://example.com/a.pdf"],
        ["https://example.com/a.pdf"]⟩ (by decide)]
  · decide

/-- Claim C1, amended: every URL in the CrawledPage output other than the
seed satisfied the scope filter at discovery time; the seed itself is
fetched (and, on success, recorded) without passing the filter. -/
theorem crawl_scope_amended (c : WebCrawler) :
    ∀ u ∈ c.start_crawl.crawled_urls,
      u = c.start_url ∨ is_valid_url c.domain u = true := by
  unfold WebCrawler.start_crawl
  exact (crawl_fuel_scope c.domain c.fetch c.max_depth c.start_url
      (c.max_depth + 1)).1 c.start_url 0 ⟨[], [], []⟩ _
    (crawl_agree_total c.domain c.fetch c.max_depth c.start_url 0 ⟨[], [], []⟩)
    (Or.inl rfl) (fun u hu => absurd hu (List.not_mem_nil u))

/-- Witness for `crawl_scope_amended` at a concrete crawl and output URL. -/
theorem crawl_scope_amended_witness :
    "https://example.com/page2" = seedLinksCrawler.start_url ∨
      is_valid_url seedLinksCrawler.domain "https://example.com/page2" = true :=
  crawl_scope_amended seedLinksCrawler "https://example.com/page2"
    (by
      rw [start_crawl_eval seedLinksCrawler
        ⟨["https://example.com", "https://example.com/page2"],
          ["https://example.com", "https://example.com/page2"],
          ["https://example.com", "https://example.com/page2"]⟩ (by decide)]
      decide)

/-- Claim C2, counterexample.  `crawl_page` (line 152) resolves the page's
relative links against the REQUESTED url, not against the response's final
URL after redirects: for a fetch of `https://example.com/start` whose
response reports final URL `https://example.com/redirected/` and one href
`page`, the produced link differs from what resolution against the final
URL yields. -/
theorem redirect_base_counterexample :
    fetchRedirected "https://example.com/start" =
      FetchOutcome.ok
        ⟨200, "text/html", ["page"], "https://example.com/redirected/"⟩ ∧
    (crawl_page "example.com" fetchRedirected "https://example.com/start"
        ⟨[], [], []⟩).1 = ["https://example.com/page"] ∧
    extract_links "example.com" "https://example.com/redirected/" ["page"] =
      ["https://example.com/redirected/page"] ∧
    (crawl_page "example.com" fetchRedirected "https://example.com/start"
        ⟨[], [], []⟩).1 ≠
      extract_links "example.com" "https://example.com/redirected/" ["page"] :=
  ⟨rfl, by decide, by decide, by decide⟩

/-- Claim C2, amended: on a successful HTML fetch the links are resolved
against the originally requested URL (the final URL after redirects is
ignored by the code). -/
theorem crawl_page_base_is_requested (domain : String)
    (fetch : String → FetchOutcome) (url : String) (st : CrawlState)
    (r : HTTPResponse) (hf : fetch url = .ok r)
    (hs : isHtmlSuccess (fetch url) = true) :
    (crawl_page domain fetch url st).1 = extract_links domain url r.hrefs := by
  rw [crawl_page_eq, if_pos hs, hf]

/-- Witness for `crawl_page_base_is_requested` on the redirect oracle. -/
theorem crawl_page_base_is_requested_witness :
    (crawl_page "example.com" fetchRedirected "https://example.com/start"
        ⟨[], [], []⟩).1 =
      extract_links "example.com" "https://example.com/start" ["page"] :=
  crawl_page_base_is_requested "example.com" fetchRedirected
    "https://example.com/start" ⟨[], [], []⟩
    ⟨200, "text/html", ["page"], "https://example.com/redirected/"⟩
    rfl (by decide)

/-- Claim C3, counterexample.  The claim says the filter rejects exactly
when the URL's PATH ends with a denylisted extension, "even when a query
string follows the path".  The code (line 77) tests the whole URL string:
`https://example.com/a.pdf?x=1` has a path ending in `.pdf`, yet
`is_valid_url` accepts it. -/
theorem extension_filter_counterexample :
    strEnds (strLower (urlparse "https://example.com/a.pdf?x=1").path)
        ".pdf" = true ∧
    is_valid_url "example.com" "https://example.com/a.pdf?x=1" = true := by
  decide

/-- Claim C3, amended: for an in-scope URL (one whose parse does not raise,
with accepted scheme and matching netloc) the filter rejects exactly when
the WHOLE lowercased URL string ends with a denylisted extension. -/
theorem extension_filter_whole_url (domain url : String)
    (hparse : urlsplitRaises url = false)
    (hscheme : (urlparse url).scheme = "http" ∨
      (urlparse url).scheme = "https")
    (hnet : (urlparse url).netloc = domain) :
    is_valid_url domain url =
      !(skip_extensions.any (fun ext => strEnds (strLower url) ext)) := by
  unfold is_valid_url
  rw [if_neg (fun hcon => Bool.false_ne_true (hparse ▸ hcon)),
    if_neg (fun hcon => hcon hscheme), if_neg (fun hcon => hcon hnet)]
  by_cases hany :
      skip_extensions.any (fun ext => strEnds (strLower url) ext) = true
  · simp [hany]
  · simp only [Bool.not_eq_true] at hany
    simp [hany]

/-- Witness for `extension_filter_whole_url`: a URL whose QUERY ends in
`.pdf` is rejected even though its path is clean. -/
theorem extension_filter_whole_url_witness :
    is_valid_url "example.com" "https://example.com/page?f=.pdf" =
      !(skip_extensions.any
        (fun ext => strEnds (strLower "https://example.com/page?f=.pdf") ext)) :=
  extension_filter_whole_url "example.com" "https://example.com/page?f=.pdf"
    (by decide) (Or.inr (by decide)) (by decide)

/-- Claim C4 (confirmed): a traversal step at depth greater than
`max_depth` returns its state unchanged (nothing fetched), and a step at
depth exactly `max_depth` fetches at most its own URL — link expansion into
depth `max_depth + 1` never happens. -/
theorem depth_bound (domain : String) (fetch : String → FetchOutcome)
    (max_depth : Nat) (url : String) (current_depth : Nat) (st : CrawlState) :
    (max_depth < current_depth →
      crawl_recursive domain fetch max_depth url current_depth st = st) ∧
    (current_depth = max_depth →
      (crawl_recursive domain fetch max_depth url
          current_depth st).fetch_log = st.fetch_log ∨
      (crawl_recursive domain fetch max_depth url
          current_depth st).fetch_log = st.fetch_log ++ [url]) := by
  constructor
  · intro h
    unfold crawl_recursive
    simp [show current_depth > max_depth from h]
  · intro h
    subst h
    by_cases h2 : url ∈ st.visited
    · left
      unfold crawl_recursive
      simp [List.elem_iff, h2]
    · right
      unfold crawl_recursive
      simp only [gt_iff_lt, lt_irrefl, if_false, List.elem_iff, h2,
        dite_eq_ite, ite_false, Bool.false_eq_true, iff_false]
      rw [crawl_page_log]

/-- Witness for `depth_bound` at concrete depths 2 > 1 and 1 = 1. -/
theorem depth_bound_witness :
    crawl_recursive "example.com" fetchOkNoLinks 1 "https://example.com" 2
        ⟨[], [], []⟩ = ⟨[], [], []⟩ ∧
    ((crawl_recursive "example.com" fetchOkNoLinks 1 "https://example.com" 1
        ⟨[], [], []⟩).fetch_log = [] ∨
      (crawl_recursive "example.com" fetchOkNoLinks 1 "https://example.com" 1
        ⟨[], [], []⟩).fetch_log = [] ++ ["https://example.com"]) :=
  ⟨(depth_bound "example.com" fetchOkNoLinks 1 "https://example.com" 2
      ⟨[], [], []⟩).1 (by decide),
    (depth_bound "example.com" fetchOkNoLinks 1 "https://example.com" 1
      ⟨[], [], []⟩).2 rfl⟩

/-- Claim C5 (confirmed): in every crawl the fetch log equals the visited
insertion history, that history has no duplicates (so each URL is
dispatched at most once), the output has no duplicates, and a traversal
step on an already-visited URL returns its state unchanged — without
fetching. -/
theorem at_most_once_fetch (c : WebCrawler) :
    c.start_crawl.fetch_log = c.start_crawl.visited ∧
    c.start_crawl.visited.Nodup ∧
    c.start_crawl.fetch_log.Nodup ∧
    c.start_crawl.crawled_urls.Nodup ∧
    ∀ domain fetch max_depth url current_depth st,
      st.visited.contains url = true →
      crawl_recursive domain fetch max_depth url current_depth st = st := by
  have hinv : StateInv c.start_crawl := by
    unfold WebCrawler.start_crawl
    exact (crawl_fuel_inv c.domain c.fetch c.max_depth (c.max_depth + 1)).1
      c.start_url 0 ⟨[], [], []⟩ _
      (crawl_agree_total c.domain c.fetch c.max_depth c.start_url 0
        ⟨[], [], []⟩)
      ⟨rfl, List.nodup_nil, List.Sublist.refl _⟩
  obtain ⟨hlog, hnd, hsub⟩ := hinv
  refine ⟨hlog, hnd, hlog ▸ hnd, hsub.nodup hnd, ?_⟩
  intro domain fetch max_depth url current_depth st hc
  have hmem : url ∈ st.visited := List.elem_iff.mp hc
  unfold crawl_recursive
  by_cases h1 : current_depth > max_depth
  · simp [h1]
  · simp [h1, List.elem_iff, hmem]

/-- Witness for `at_most_once_fetch` at a concrete crawl and a concrete
already-visited state. -/
theorem at_most_once_fetch_witness :
    (seedLinksCrawler.start_crawl.visited.Nodup ∧
      seedLinksCrawler.start_crawl.crawled_urls.Nodup) ∧
    crawl_recursive "example.com" fetchOkNoLinks 1 "https://example.com" 1
        ⟨["https://example.com"], [], []⟩ = ⟨["https://example.com"], [], []⟩ :=
  ⟨⟨(at_most_once_fetch seedLinksCrawler).2.1,
    (at_most_once_fetch seedLinksCrawler).2.2.2.1⟩,
    (at_most_once_fetch seedLinksCrawler).2.2.2.2 "example.com" fetchOkNoLinks
      1 "https://example.com" 1 ⟨["https://example.com"], [], []⟩ (by decide)⟩

/-- Claim C6 (confirmed): a URL is appended to the output exactly when its
fetch returned HTTP 200 with a `text/html` content type; on every other
outcome (non-200, non-HTML, timeout, connection failure, other exception)
nothing is appended and no links are contributed.  The traversal step is a
total function on `FetchOutcome`, so no per-page failure escapes it. -/
theorem fetch_outcome_classification (domain : String)
    (fetch : String → FetchOutcome) (url : String) (st : CrawlState) :
    ((crawl_page domain fetch url st).2.crawled_urls =
        st.crawled_urls ++ [url] ↔ isHtmlSuccess (fetch url) = true) ∧
    (isHtmlSuccess (fetch url) = false →
      (crawl_page domain fetch url st).1 = [] ∧
      (crawl_page domain fetch url st).2.crawled_urls = st.crawled_urls) := by
  rw [crawl_page_eq]
  by_cases hs : isHtmlSuccess (fetch url) = true
  · simp [hs]
  · have hs' : isHtmlSuccess (fetch url) = false := by simpa using hs
    simp [hs']

/-- Witness for `fetch_outcome_classification` on a timing-out fetch. -/
theorem fetch_outcome_classification_witness :
    (crawl_page "example.com" fetchTimesOut "https://example.com"
        ⟨[], [], []⟩).1 = [] ∧
    (crawl_page "example.com" fetchTimesOut "https://example.com"
        ⟨[], [], []⟩).2.crawled_urls = [] :=
  (fetch_outcome_classification "example.com" fetchTimesOut
    "https://example.com" ⟨[], [], []⟩).2 (by decide)

/-- Claim C7, counterexample.  `extract_links` runs its whole loop inside
`try ... except Exception: return []` (lines 96, 120–122); a single
bracket-malformed href makes CPython's `urljoin` raise
`ValueError("Invalid IPv6 URL")`, so the function returns `[]` for the
WHOLE page, while the claimed pipeline keeps the page's other links. -/
theorem extract_links_exception_counterexample :
    urljoin "https://example.com" "http://[" = none ∧
    extract_links "example.com" "https://example.com"
        ["page2", "http://["] = [] ∧
    extractLinksSpec "example.com" "https://example.com"
        ["page2", "http://["] = ["https://example.com/page2"] ∧
    extract_links "example.com" "https://example.com"
        ["page2", "http://["] ≠
      extractLinksSpec "example.com" "https://example.com"
        ["page2", "http://["] := by
  refine ⟨by decide, by decide, by decide, by decide⟩

/-- Claim C7, amended: for every page none of whose (trimmed, non-skipped)
references makes URL resolution raise, `extract_links` equals the spec's
pipeline — trim, skip empty/`#`/`javascript:`/`mailto:` references, resolve
against the base URL, strip fragments after resolution, keep only
scope-filtered URLs, deduplicate keeping first-seen order.  Unconditionally
its output has no duplicates and only scope-accepted URLs; when some
reference raises, the `except` handler discards the whole page's links. -/
theorem extract_links_meets_spec (domain current_url : String)
    (hrefs : List String) :
    ((∀ h ∈ hrefs, skipRef (strTrim h) = false →
        (urljoin current_url (strTrim h)).isSome = true) →
      extract_links domain current_url hrefs =
        extractLinksSpec domain current_url hrefs) ∧
    (extract_links domain current_url hrefs).Nodup ∧
    ∀ u ∈ extract_links domain current_url hrefs,
      is_valid_url domain u = true := by
  refine ⟨?_, ?_, ?_⟩
  · intro hok
    unfold extract_links extractLinksSpec dedupFirstSeen
    exact extract_links_loop_spec domain current_url hrefs [] hok
  · exact extract_links_loop_nodup domain current_url hrefs [] List.nodup_nil
  · intro u hu
    rcases extract_links_loop_mem domain current_url hrefs [] u hu with h | h
    · exact absurd h (List.not_mem_nil u)
    · exact h

/-- Witness for `extract_links_meets_spec` at a concrete page. -/
theorem extract_links_meets_spec_witness :
    extract_links "example.com" "https://example.com"
        ["page2", "page2", "#top", "mailto:a@b", "a.pdf"] =
      extractLinksSpec "example.com" "https://example.com"
        ["page2", "page2", "#top", "mailto:a@b", "a.pdf"] ∧
    is_valid_url "example.com" "https://example.com/page2" = true :=
  ⟨(extract_links_meets_spec "example.com" "https://example.com"
      ["page2", "page2", "#top", "mailto:a@b", "a.pdf"]).1 (by decide),
    (extract_links_meets_spec "example.com" "https://example.com"
      ["page2", "page2", "#top", "mailto:a@b", "a.pdf"]).2.2
      "https://example.com/page2" (by decide)⟩

/-- Claim C8, counterexample.  The claim says the process exits 1 EXACTLY
on invalid input (empty seed, negative or non-numeric depth).  Seed
`https://[x` with depth `2` is valid input under that enumeration, yet the
`WebCrawler` constructor's unguarded `urlparse` (line 44) raises
`ValueError("Invalid IPv6 URL")`, `main`'s `except Exception` handler
(lines 266–268) catches it, and the process exits 1 with no crawl run. -/
theorem main_exception_counterexample :
    invalidInput "https://[x" "2" = false ∧
    urlsplitRaises (prefixedUrl "https://[x") = true ∧
    mainRun "https://[x" "2" fetchOkNoLinks none =
      { exitCode := 1, crawled := none } := by
  refine ⟨by decide, by decide, by decide⟩

/-- Claim C8, amended: `main` exits 0 on normal completion and on
user-interrupted completion returning partial results; it exits 1 exactly
when the input is invalid (empty seed URL, non-numeric depth, negative
depth) or the crawler constructor's `urlparse` raises on the
scheme-prefixed seed (caught by `main`'s generic exception handler).  In
every exit-1 case no crawl work is attempted. -/
theorem main_exit_codes (urlInput depthInput : String)
    (fetch : String → FetchOutcome) (interrupt : Option CrawlState) :
    ((mainRun urlInput depthInput fetch interrupt).exitCode = 1 ↔
      (invalidInput urlInput depthInput = true ∨
        urlsplitRaises (prefixedUrl urlInput) = true)) ∧
    ((mainRun urlInput depthInput fetch interrupt).exitCode = 0 ↔
      (invalidInput urlInput depthInput = false ∧
        urlsplitRaises (prefixedUrl urlInput) = false)) ∧
    ((mainRun urlInput depthInput fetch interrupt).exitCode = 1 →
      (mainRun urlInput depthInput fetch interrupt).crawled = none) ∧
    (∀ st, interrupt = some st →
      invalidInput urlInput depthInput = false →
      urlsplitRaises (prefixedUrl urlInput) = false →
      (mainRun urlInput depthInput fetch interrupt).exitCode = 0 ∧
      (mainRun urlInput depthInput fetch interrupt).crawled =
        some st.crawled_urls) := by
  unfold mainRun invalidInput
  by_cases hu : strTrim urlInput = ""
  · simp [hu]
  · cases hd : parsedDepth depthInput with
    | none => simp [hu, hd]
    | some d =>
      by_cases hneg : d < 0
      · simp [hu, hd, hneg]
      · by_cases hbr : urlsplitRaises (prefixedUrl urlInput) = true
        · simp [hu, hd, hneg, hbr]
        · have hbr' : urlsplitRaises (prefixedUrl urlInput) = false := by
            simpa using hbr
          cases interrupt with
          | none => simp [hu, hd, hneg, hbr']
          | some st => simp [hu, hd, hneg, hbr']

/-- Witness for `main_exit_codes`: empty URL exits 1; valid input (with a
non-ASCII decimal depth digit, accepted by Python `int()`) and an
interrupted crawl exits 0 with the partial list. -/
theorem main_exit_codes_witness :
    (mainRun "" "2" fetchOkNoLinks none).exitCode = 1 ∧
    ((mainRun "https://example.com" "٢" fetchOkNoLinks
        (some ⟨["https://example.com"], ["https://example.com"],
          ["https://example.com"]⟩)).exitCode = 0 ∧
      (mainRun "https://example.com" "٢" fetchOkNoLinks
        (some ⟨["https://example.com"], ["https://example.com"],
          ["https://example.com"]⟩)).crawled = some ["https://example.com"]) :=
  ⟨(main_exit_codes "" "2" fetchOkNoLinks none).1.mpr (Or.inl (by decide)),
    (main_exit_codes "https://example.com" "٢" fetchOkNoLinks
      (some ⟨["https://example.com"], ["https://example.com"],
        ["https://example.com"]⟩)).2.2.2
      ⟨["https://example.com"], ["https://example.com"],
        ["https://example.com"]⟩ rfl (by decide) (by decide)⟩

/-- Claim C9 (confirmed): with `max_depth = 0` the crawl fetches exactly the
seed (and nothing else), and the output is `[seed]` when that single fetch
is an HTML success and `[]` otherwise. -/
theorem depth_zero_output (c : WebCrawler) (h0 : c.max_depth = 0) :
    (isHtmlSuccess (c.fetch c.start_url) = true →
      c.start_crawl.crawled_urls = [c.start_url]) ∧
    (isHtmlSuccess (c.fetch c.start_url) = false →
      c.start_crawl.crawled_urls = []) ∧
    c.start_crawl.fetch_log = [c.start_url] := by
  unfold WebCrawler.start_crawl
  rw [h0]
  have hmain : crawl_recursive c.domain c.fetch 0 c.start_url 0 ⟨[], [], []⟩ =
      (crawl_page c.domain c.fetch c.start_url ⟨[c.start_url], [], []⟩).2 := by
    unfold crawl_recursive
    simp
  rw [hmain, crawl_page_eq]
  by_cases hs : isHtmlSuccess (c.fetch c.start_url) = true <;> simp [hs]

/-- Witness for `depth_zero_output` in both the success and failure cases. -/
theorem depth_zero_output_witness :
    seedZeroCrawler.start_crawl.crawled_urls = ["https://example.com"] ∧
    seedTimeoutCrawler.start_crawl.crawled_urls = [] :=
  ⟨(depth_zero_output seedZeroCrawler rfl).1 (by decide),
    (depth_zero_output seedTimeoutCrawler rfl).2.1 (by decide)⟩

/-- Claim C10 (confirmed): the traversal terminates with recursion depth
bounded by `max_depth + 1`: the fuel-indexed replay of `crawl_recursive`,
run with fuel `max_depth + 1` from any starting depth, completes (never
exhausts its fuel) and returns exactly the traversal's result. -/
theorem crawl_recursive_terminates (domain : String)
    (fetch : String → FetchOutcome) (max_depth : Nat) (url : String)
    (current_depth : Nat) (st : CrawlState) :
    crawl_recursive_fuel domain fetch max_depth (max_depth + 1) url
        current_depth st =
      some (crawl_recursive domain fetch max_depth url current_depth st) :=
  crawl_agree_total domain fetch max_depth url current_depth st

end WebCrawlerModel
